import Mathlib

/-!
Verification of the parallel graph kernel substrate: CSR-backed undirected
graphs, the parallel triangle-counting kernel `global_triangle_count`, the
degree-ordered relabelling `relabel_graph`, the Arrow-Flight action layer,
and the PageRank result accessor.

The Rust sources are shallowly embedded: a CSR graph is abstracted by its
`node_count` and the per-node neighbour slice `neighbors`; the worker loop
with atomic chunk dispatch is embedded as a sequential recursion over the
cursor value (the fetch-add protocol itself is modelled by `fetch_add` and
`nthClaim`); machine integers are `Nat` (no arithmetic in the sources can
overflow `u64`/`usize` on the inputs considered, and Rust would panic
rather than wrap in debug builds).
-/

namespace TC

/-- A CSR undirected graph abstracted by its two read operations
(`node_count`, `neighbors`).  `neighbors u` is node `u`'s neighbour slice
`targets[offsets[u]..offsets[u+1]]`. -/
structure UGraph where
  node_count : Nat
  neighbors : Nat → List Nat

/-- `const CHUNK_SIZE: usize = 64;` from `triangle_count.rs`. -/
def CHUNK_SIZE : Nat := 64

/-- The `while let Some(x) = it.next()` loop over the put-back iterator on
`neighbors(u)`: consume elements `x < w`; at the first `x ≥ w` count a
triangle iff `x == w` and put `x` back (so it stays at the head of the
remaining list); if the iterator is exhausted nothing is put back.
Returns the increment together with the remaining iterator contents. -/
def scanTo (w : Nat) : List Nat → Nat × List Nat
  | [] => (0, [])
  | x :: xs => if w ≤ x then (if x = w then 1 else 0, x :: xs) else scanTo w xs

/-- The `for &w in graph.neighbors_iter(v)` loop: break at the first
`w > v`, otherwise scan the put-back iterator (state `us`) for `w`. -/
def intersectCount (v : Nat) (us : List Nat) : List Nat → Nat
  | [] => 0
  | w :: ws =>
    if v < w then 0
    else
      let p := scanTo w us
      p.1 + intersectCount v p.2 ws

/-- The `for &v in graph.neighbors_iter(u)` loop: break at the first
`v > u`, otherwise intersect a fresh put-back iterator over `neighbors(u)`
with `neighbors(v)`. -/
def neighborLoop (g : UGraph) (u : Nat) : List Nat → Nat
  | [] => 0
  | v :: vs =>
    if u < v then 0
    else intersectCount v (g.neighbors u) (g.neighbors v) + neighborLoop g u vs

/-- Triangle counts accumulated while processing one node `u`. -/
def triangleCountAt (g : UGraph) (u : Nat) : Nat :=
  neighborLoop g u (g.neighbors u)

/-- `for u in start..end` over one claimed chunk (half-open range). -/
def processRange (g : UGraph) (start stop : Nat) : Nat :=
  ((List.range' start (stop - start)).map (triangleCountAt g)).sum

/-- The worker loop: claim the chunk `[start, min(start+cs, node_count))`,
process it, advance the cursor by `cs`; stop as soon as the claimed start
is `≥ node_count`.  The code fixes `cs = CHUNK_SIZE = 64 > 0`; the guard
`0 < cs` only makes the recursion terminating for arbitrary `cs`. -/
def tcChunks (g : UGraph) (cs start : Nat) : Nat :=
  if _h : 0 < cs ∧ start < g.node_count then
    processRange g start (min (start + cs) g.node_count) + tcChunks g cs (start + cs)
  else 0
termination_by g.node_count - start
decreasing_by omega

/-- `global_triangle_count` from `triangle_count.rs`: all workers drain the
shared cursor (initialised to 0) in `CHUNK_SIZE` steps and the per-worker
tallies are summed; the result equals the single-cursor sequential drain. -/
def global_triangle_count (g : UGraph) : Nat :=
  tcChunks g CHUNK_SIZE 0

/-- One `fetch_add` on the shared cursor: returns the previous value and
the updated cursor. -/
def fetch_add (cursor amount : Nat) : Nat × Nat := (cursor, cursor + amount)

/-- The start value returned by the `k`-th `fetch_add(cs)` on a cursor
initialised to 0. -/
def nthClaim (cs : Nat) : Nat → Nat
  | 0 => 0
  | k + 1 => (fetch_add (nthClaim cs k) cs).2

/-- The node ids of the chunk claimed by a `fetch_add` that returned
`start`: the half-open range `[start, min(start + cs, node_count))`. -/
def claimedChunk (cs n start : Nat) : List Nat :=
  List.range' start (min (start + cs) n - start)

/-- Number of chunks that contain at least one node: `⌈n / cs⌉`. -/
def numChunks (cs n : Nat) : Nat := (n + cs - 1) / cs

/-- The triangle counts contributed by chunk index `k`. -/
def chunkSum (g : UGraph) (cs k : Nat) : Nat :=
  processRange g (k * cs) (min (k * cs + cs) g.node_count)

/-! ## The Arrow-Flight action layer (`server/src/actions.rs`) -/

/-- `FileFormat` from `actions.rs`. -/
inductive FileFormat where
  | EdgeList
  | EdgeListWeighted
  | Graph500
deriving DecidableEq

/-- `CsrLayout` (deserialised through `CsrLayoutRef`). -/
inductive CsrLayout where
  | Sorted
  | Unsorted
  | Deduplicated
deriving DecidableEq

/-- `Orientation` from `actions.rs`; `Directed` is the serde default. -/
inductive Orientation where
  | Directed
  | Undirected
deriving DecidableEq

/-- `CreateGraphFromFileConfig` from `actions.rs`. -/
structure CreateGraphFromFileConfig where
  graph_name : String
  file_format : FileFormat
  path : String
  csr_layout : CsrLayout
  orientation : Orientation
deriving DecidableEq

/-- `PageRankConfig` lives in the external `graph` crate; its fields are
irrelevant to the action-layer claims. -/
structure PageRankConfig where
deriving DecidableEq

/-- `DeltaSteppingConfig` lives in the external `graph` crate. -/
structure DeltaSteppingConfig where
deriving DecidableEq

/-- `WccConfig` lives in the external `graph` crate. -/
structure WccConfig where
deriving DecidableEq

/-- `Algorithm` from `actions.rs`. -/
inductive Algorithm where
  | PageRank (c : PageRankConfig)
  | TriangleCount
  | Sssp (c : DeltaSteppingConfig)
  | Wcc (c : WccConfig)
deriving DecidableEq

/-- `ComputeConfig` from `actions.rs`. -/
structure ComputeConfig where
  graph_name : String
  algorithm : Algorithm
  property_key : String
deriving DecidableEq

/-- `RelabelConfig` from `actions.rs`. -/
structure RelabelConfig where
  graph_name : String
deriving DecidableEq

/-- `arrow_flight::Action`: a type tag plus an opaque byte body (the body
bytes are represented as a `String`). -/
structure Action where
  r_type : String
  body : String
deriving DecidableEq

/-- `tonic::Status` codes used by `actions.rs`. -/
inductive StatusCode where
  | invalidArgument
  | internal
deriving DecidableEq

/-- `tonic::Status`: a code together with a message. -/
structure Status where
  code : StatusCode
  message : String
deriving DecidableEq

/-- `Status::invalid_argument`. -/
def Status.invalid_argument (m : String) : Status := ⟨.invalidArgument, m⟩

/-- `Status::internal`. -/
def Status.internal (m : String) : Status := ⟨.internal, m⟩

/-- A `serde_json::Error`, abstracted by its debug rendering. -/
abbrev JsonError : Type := String

/-- `from_json_error` from `actions.rs`:
`Status::internal(format!("JsonError: {error:?}"))`. -/
def from_json_error (e : JsonError) : Status :=
  Status.internal ("JsonError: " ++ e)

/-- `FlightAction` from `actions.rs`. -/
inductive FlightAction where
  | Create (c : CreateGraphFromFileConfig)
  | List
  | Compute (c : ComputeConfig)
  | Relabel (c : RelabelConfig)
deriving DecidableEq

/-- The three `serde_json::from_slice` instantiations used by the
`TryFrom<Action>` impls.  JSON deserialisation lives in the external
`serde_json` crate, so the parsers are abstract parameters. -/
structure JsonParsers where
  parseCreate : String → Except JsonError CreateGraphFromFileConfig
  parseCompute : String → Except JsonError ComputeConfig
  parseRelabel : String → Except JsonError RelabelConfig

/-- `TryFrom<Action> for CreateGraphFromFileConfig`:
`serde_json::from_slice(action.body).map_err(from_json_error)`. -/
def CreateGraphFromFileConfig.try_from (P : JsonParsers) (a : Action) :
    Except Status CreateGraphFromFileConfig :=
  match P.parseCreate a.body with
  | .ok c => .ok c
  | .error e => .error (from_json_error e)

/-- `TryFrom<Action> for ComputeConfig`. -/
def ComputeConfig.try_from (P : JsonParsers) (a : Action) :
    Except Status ComputeConfig :=
  match P.parseCompute a.body with
  | .ok c => .ok c
  | .error e => .error (from_json_error e)

/-- `TryFrom<Action> for RelabelConfig`. -/
def RelabelConfig.try_from (P : JsonParsers) (a : Action) :
    Except Status RelabelConfig :=
  match P.parseRelabel a.body with
  | .ok c => .ok c
  | .error e => .error (from_json_error e)

/-- `TryFrom<Action> for FlightAction`: dispatch on the action type
string (a `match` on `&str` is an equality chain); the `?` operator
propagates the body-parse `Status` errors. -/
def FlightAction.try_from (P : JsonParsers) (a : Action) :
    Except Status FlightAction :=
  if a.r_type = "create" then
    match CreateGraphFromFileConfig.try_from P a with
    | .ok c => .ok (FlightAction.Create c)
    | .error s => .error s
  else if a.r_type = "list" then .ok FlightAction.List
  else if a.r_type = "compute" then
    match ComputeConfig.try_from P a with
    | .ok c => .ok (FlightAction.Compute c)
    | .error s => .error s
  else if a.r_type = "relabel" then
    match RelabelConfig.try_from P a with
    | .ok c => .ok (FlightAction.Relabel c)
    | .error s => .error s
  else .error (Status.invalid_argument ("Unknown action type: " ++ a.r_type))

/-! ## `PageRankResult` (`unladen_swallow/src/pr.rs`) -/

/-- The `#[pyclass] PageRankResult` fields relevant to `score`. -/
structure PageRankResult where
  scores : List Float
  ran_iterations : Nat
  error : Float
  page_rank_micros : Nat

/-- `PageRankResult::score`: `self.scores.get(node_id).copied()`. -/
def PageRankResult.score (r : PageRankResult) (node_id : Nat) : Option Float :=
  r.scores.get? node_id

/-! ## Degree-ordered relabelling -/

/-- `degree(u)` of the CSR graph: the length of the neighbour slice. -/
def degree (g : UGraph) (u : Nat) : Nat := (g.neighbors u).length

/-- Modelled from the spec: `UndirectedCsrGraph::to_degree_ordered` is not
in `src/` (it lives in the external `graph` crate), so the permutation `π`
of §4.3 is modelled from the spec's words: "Produce a permutation `π` such
that `degree[π(0)] ≥ degree[π(1)] ≥ …`. Ties broken by original id
ascending (stable)."  `degOrder g` is the list `[π 0, π 1, …, π (n-1)]`,
obtained by stably sorting the ids by non-increasing degree. -/
def degOrder (g : UGraph) : List Nat :=
  List.insertionSort
    (fun i j => degree g j < degree g i ∨ (degree g i = degree g j ∧ i ≤ j))
    (List.range g.node_count)

/-- The permutation `π` of §4.3: new id `i` denotes old node `π i`. -/
def origOf (g : UGraph) (i : Nat) : Nat := (degOrder g).getD i 0

/-- The inverse permutation `π⁻¹` of §4.3: old node `x` gets new id
`π⁻¹ x`. -/
def newOf (g : UGraph) (x : Nat) : Nat := (degOrder g).indexOf x

/-- Modelled from the spec: `relabel_graph` (triangle_count.rs) delegates
to `to_degree_ordered`, which is not in `src/`; modelled from §4.3:
new slice `i` is old slice `π(i)` with every element rewritten by `π⁻¹`
and re-sorted ascending ("Rewrite every element of `targets` by applying
`π⁻¹` … Re-sort each neighbour slice ascending"). -/
def relabel_graph (g : UGraph) : UGraph where
  node_count := g.node_count
  neighbors := fun i =>
    if i < g.node_count then
      List.insertionSort (· ≤ ·) ((g.neighbors (origOf g i)).map (newOf g))
    else []

/-! ## Spec-side predicates -/

/-- `b` appears in `a`'s neighbour slice. -/
def adj (g : UGraph) (a b : Nat) : Prop := b ∈ g.neighbors a

instance (g : UGraph) (a b : Nat) : Decidable (adj g a b) :=
  inferInstanceAs (Decidable (b ∈ g.neighbors a))

/-- `Deduplicated` layout: every neighbour slice is strictly ascending. -/
def StrictSorted (g : UGraph) : Prop :=
  ∀ u, u < g.node_count → List.Sorted (· < ·) (g.neighbors u)

/-- No node's slice contains the node itself. -/
def NoSelfLoops (g : UGraph) : Prop :=
  ∀ u, u < g.node_count → u ∉ g.neighbors u

/-- Undirected symmetry: every edge `(u, v)` with `u ≠ v` is present in
both `u`'s and `v`'s slice. -/
def SymAdj (g : UGraph) : Prop :=
  ∀ u, u < g.node_count → ∀ v, v < g.node_count → u ≠ v →
    (v ∈ g.neighbors u ↔ u ∈ g.neighbors v)

/-- Every stored neighbour is a valid node id. -/
def RangeClosed (g : UGraph) : Prop :=
  ∀ u, u < g.node_count → ∀ x ∈ g.neighbors u, x < g.node_count

/-- The configurations of the spec's decomposition: `(u, v, w)` with
`w < v < u`, `v` a neighbour of `u`, and `w` a common neighbour of `u`
and `v`. -/
def configSet (g : UGraph) : Finset (Nat × Nat × Nat) :=
  ((Finset.range g.node_count) ×ˢ (Finset.range g.node_count) ×ˢ
      (Finset.range g.node_count)).filter
    (fun t => t.2.2 < t.2.1 ∧ t.2.1 < t.1 ∧
      adj g t.1 t.2.1 ∧ adj g t.1 t.2.2 ∧ adj g t.2.1 t.2.2)

/-- The unordered triples `{u, v, w}` of mutually adjacent distinct
nodes. -/
def tripleSet (g : UGraph) : Finset (Finset Nat) :=
  ((Finset.range g.node_count).powersetCard 3).filter
    (fun s => ∀ a ∈ s, ∀ b ∈ s, a ≠ b → adj g a b)

/-! ## Concrete graphs used as witnesses and counterexamples -/

/-- Two disjoint triangles on 6 nodes (spec scenario 1). -/
def gTwoTriangles : UGraph where
  node_count := 6
  neighbors := fun u =>
    match u with
    | 0 => [1, 2]
    | 1 => [0, 2]
    | 2 => [0, 1]
    | 3 => [4, 5]
    | 4 => [3, 5]
    | 5 => [3, 4]
    | _ => []

/-- Edge `{0, 1}` plus a self-loop at node 1; deduplicated and symmetric
for distinct endpoints. -/
def gSelfLoop : UGraph where
  node_count := 2
  neighbors := fun u =>
    match u with
    | 0 => [1]
    | 1 => [0, 1]
    | _ => []

/-- Edge `{0, 1}` only (the self-loop of `gSelfLoop` removed). -/
def gNoLoop : UGraph where
  node_count := 2
  neighbors := fun u =>
    match u with
    | 0 => [1]
    | 1 => [0]
    | _ => []

/-- Triangle `{0, 1, 2}` plus a self-loop at node 2. -/
def gTriLoop : UGraph where
  node_count := 3
  neighbors := fun u =>
    match u with
    | 0 => [1, 2]
    | 1 => [0, 2]
    | 2 => [0, 1, 2]
    | _ => []

/-- Ten isolated nodes, no edges (spec scenario 6). -/
def gEmpty10 : UGraph where
  node_count := 10
  neighbors := fun _ => []

instance (g : UGraph) : Decidable (StrictSorted g) :=
  inferInstanceAs (Decidable (∀ u, u < g.node_count → List.Sorted (· < ·) (g.neighbors u)))

instance (g : UGraph) : Decidable (NoSelfLoops g) :=
  inferInstanceAs (Decidable (∀ u, u < g.node_count → u ∉ g.neighbors u))

instance (g : UGraph) : Decidable (SymAdj g) :=
  inferInstanceAs (Decidable (∀ u, u < g.node_count → ∀ v, v < g.node_count →
    u ≠ v → (v ∈ g.neighbors u ↔ u ∈ g.neighbors v)))

instance (g : UGraph) : Decidable (RangeClosed g) :=
  inferInstanceAs (Decidable (∀ u, u < g.node_count → ∀ x ∈ g.neighbors u,
    x < g.node_count))

/-! ## Basic facts about the worker loop -/

theorem tcChunks_stop (g : UGraph) (cs start : Nat) (h : g.node_count ≤ start) :
    tcChunks g cs start = 0 := by
  rw [tcChunks]
  exact dif_neg (by omega)

theorem tcChunks_step (g : UGraph) (cs start : Nat)
    (h : 0 < cs ∧ start < g.node_count) :
    tcChunks g cs start =
      processRange g start (min (start + cs) g.node_count) +
        tcChunks g cs (start + cs) := by
  rw [tcChunks]
  exact dif_pos h

theorem processRange_empty (g : UGraph) (a b : Nat) (h : b ≤ a) :
    processRange g a b = 0 := by
  unfold processRange
  rw [show b - a = 0 by omega]
  rfl

theorem processRange_append (g : UGraph) (a b c : Nat) (h1 : a ≤ b) (h2 : b ≤ c) :
    processRange g a b + processRange g b c = processRange g a c := by
  unfold processRange
  have h3 := List.range'_append a (b - a) (c - b) 1
  rw [show a + 1 * (b - a) = b by omega, show c - b + (b - a) = c - a by omega] at h3
  rw [← h3, List.map_append, List.sum_append]

theorem tcChunks_eq_processRange (g : UGraph) (cs : Nat) (hcs : 0 < cs)
    (start : Nat) : tcChunks g cs start = processRange g start g.node_count := by
  by_cases h : start < g.node_count
  · rw [tcChunks_step g cs start ⟨hcs, h⟩,
      tcChunks_eq_processRange g cs hcs (start + cs)]
    by_cases h2 : start + cs ≤ g.node_count
    · rw [show min (start + cs) g.node_count = start + cs by omega]
      exact processRange_append g start (start + cs) g.node_count (by omega) h2
    · rw [show min (start + cs) g.node_count = g.node_count by omega,
        processRange_empty g (start + cs) g.node_count (by omega)]
      omega
  · rw [tcChunks_stop g cs start (by omega),
      processRange_empty g start g.node_count (by omega)]
termination_by g.node_count - start
decreasing_by omega

theorem global_eq_processRange (g : UGraph) :
    global_triangle_count g = processRange g 0 g.node_count :=
  tcChunks_eq_processRange g CHUNK_SIZE (by decide) 0

theorem nthClaim_eq (cs k : Nat) : nthClaim cs k = k * cs := by
  induction k with
  | zero => simp [nthClaim]
  | succ k ih =>
    show nthClaim cs k + cs = (k + 1) * cs
    rw [ih]
    ring

/-! ## Claim theorems: work dispatch, empty graphs, actions, PageRank -/

/-- Claim C4: every `fetch_add` of `CHUNK_SIZE` on the shared cursor
(initialised to 0, so the `k`-th claim starts at `k * CHUNK_SIZE`) claims
the half-open node range `[start, min(start + CHUNK_SIZE, node_count))`;
a worker stops exactly when the claimed `start` satisfies
`start ≥ node_count`; and `CHUNK_SIZE` equals 64. -/
theorem chunk_dispatch (g : UGraph) :
    CHUNK_SIZE = 64
    ∧ (∀ k, nthClaim CHUNK_SIZE k = k * CHUNK_SIZE)
    ∧ (∀ start i, i ∈ claimedChunk CHUNK_SIZE g.node_count start ↔
        start ≤ i ∧ i < min (start + CHUNK_SIZE) g.node_count)
    ∧ (∀ start, g.node_count ≤ start → tcChunks g CHUNK_SIZE start = 0)
    ∧ (∀ start, start < g.node_count →
        tcChunks g CHUNK_SIZE start =
          processRange g start (min (start + CHUNK_SIZE) g.node_count) +
            tcChunks g CHUNK_SIZE (start + CHUNK_SIZE)) := by
  refine ⟨rfl, fun k => nthClaim_eq CHUNK_SIZE k, fun start i => ?_,
    fun start h => tcChunks_stop g CHUNK_SIZE start h,
    fun start h => tcChunks_step g CHUNK_SIZE start ⟨by decide, h⟩⟩
  rw [claimedChunk, List.mem_range'_1]
  omega

/-- Witness for C4 on a concrete graph: a claimed start of 70 is past the
6 nodes of `gTwoTriangles`, so the worker stops with no contribution. -/
theorem chunk_dispatch_witness :
    gTwoTriangles.node_count ≤ 70 ∧ tcChunks gTwoTriangles CHUNK_SIZE 70 = 0 :=
  ⟨by decide, (chunk_dispatch gTwoTriangles).2.2.2.1 70 (by decide)⟩

/-- Claim C6: a graph with no nodes, or one with every neighbour slice
empty, has triangle count 0. -/
theorem empty_graph_zero (g : UGraph) :
    (g.node_count = 0 → global_triangle_count g = 0)
    ∧ ((∀ u, u < g.node_count → g.neighbors u = []) →
        global_triangle_count g = 0) := by
  constructor
  · intro h
    rw [global_eq_processRange, h]
    rfl
  · intro h
    rw [global_eq_processRange]
    unfold processRange
    apply List.sum_eq_zero
    intro x hx
    obtain ⟨u, hu, rfl⟩ := List.mem_map.mp hx
    have hun : u < g.node_count := by
      have := List.mem_range'_1.mp hu
      omega
    unfold triangleCountAt
    rw [h u hun]
    rfl

/-- Witness for C6: ten isolated nodes give triangle count 0. -/
theorem empty_graph_zero_witness :
    (∀ u, u < gEmpty10.node_count → gEmpty10.neighbors u = [])
    ∧ global_triangle_count gEmpty10 = 0 :=
  ⟨by decide, (empty_graph_zero gEmpty10).2 (by decide)⟩

/-- Claim C7: converting an `Action` whose type string is none of
`create`, `list`, `compute`, `relabel` fails with `InvalidArgument`; for
those four types the conversion succeeds with the corresponding
`FlightAction` variant whenever the body parses. -/
theorem flight_action_dispatch (P : JsonParsers) (a : Action) :
    (a.r_type ∉ ["create", "list", "compute", "relabel"] →
      FlightAction.try_from P a =
        Except.error (Status.invalid_argument ("Unknown action type: " ++ a.r_type))
      ∧ ∀ s, FlightAction.try_from P a = Except.error s →
          s.code = StatusCode.invalidArgument)
    ∧ (∀ c, a.r_type = "create" → P.parseCreate a.body = Except.ok c →
        FlightAction.try_from P a = Except.ok (FlightAction.Create c))
    ∧ (a.r_type = "list" →
        FlightAction.try_from P a = Except.ok FlightAction.List)
    ∧ (∀ c, a.r_type = "compute" → P.parseCompute a.body = Except.ok c →
        FlightAction.try_from P a = Except.ok (FlightAction.Compute c))
    ∧ (∀ c, a.r_type = "relabel" → P.parseRelabel a.body = Except.ok c →
        FlightAction.try_from P a = Except.ok (FlightAction.Relabel c)) := by
  refine ⟨fun h => ?_, fun c h hp => ?_, fun h => ?_, fun c h hp => ?_,
    fun c h hp => ?_⟩
  · simp only [List.mem_cons, List.not_mem_nil, or_false, not_or] at h
    obtain ⟨h1, h2, h3, h4⟩ := h
    constructor
    · simp [FlightAction.try_from, h1, h2, h3, h4]
    · intro s hs
      simp [FlightAction.try_from, h1, h2, h3, h4] at hs
      rw [← hs]
      rfl
  · simp [FlightAction.try_from, h, CreateGraphFromFileConfig.try_from, hp]
  · by_cases hc : a.r_type = "create"
    · rw [h] at hc
      simp at hc
    · simp [FlightAction.try_from, h, hc]
  · have hc : a.r_type ≠ "create" := by rw [h]; decide
    have hl : a.r_type ≠ "list" := by rw [h]; decide
    simp [FlightAction.try_from, h, hc, hl, ComputeConfig.try_from, hp]
  · have hc : a.r_type ≠ "create" := by rw [h]; decide
    have hl : a.r_type ≠ "list" := by rw [h]; decide
    have hm : a.r_type ≠ "compute" := by rw [h]; decide
    simp [FlightAction.try_from, h, hc, hl, hm, RelabelConfig.try_from, hp]

/-- Parsers that fail on every body. -/
def failingParsers : JsonParsers where
  parseCreate := fun _ => Except.error "parse failure"
  parseCompute := fun _ => Except.error "parse failure"
  parseRelabel := fun _ => Except.error "parse failure"

/-- Parsers that succeed on every body with a fixed config. -/
def okParsers : JsonParsers where
  parseCreate := fun _ =>
    Except.ok ⟨"g", FileFormat.EdgeList, "p", CsrLayout.Sorted, Orientation.Directed⟩
  parseCompute := fun _ => Except.ok ⟨"g", Algorithm.TriangleCount, "k"⟩
  parseRelabel := fun _ => Except.ok ⟨"g"⟩

/-- Witness for C7: an unknown action type is rejected with
`InvalidArgument`, and a parsable `create` body succeeds. -/
theorem flight_action_dispatch_witness :
    ((⟨"destroy", ""⟩ : Action).r_type ∉ ["create", "list", "compute", "relabel"])
    ∧ FlightAction.try_from okParsers ⟨"destroy", ""⟩ =
        Except.error (Status.invalid_argument "Unknown action type: destroy")
    ∧ FlightAction.try_from okParsers ⟨"create", "{}"⟩ =
        Except.ok (FlightAction.Create
          ⟨"g", FileFormat.EdgeList, "p", CsrLayout.Sorted, Orientation.Directed⟩) :=
  ⟨by decide,
    ((flight_action_dispatch okParsers ⟨"destroy", ""⟩).1 (by decide)).1,
    (flight_action_dispatch okParsers ⟨"create", "{}"⟩).2.1 _ rfl rfl⟩

/-- Claim C8: a `create`, `compute` or `relabel` action whose body fails
to deserialise is rejected with an `Internal` status whose message is
`"JsonError: "` followed by the deserialisation error. -/
theorem json_error_surface (P : JsonParsers) (a : Action) (e : JsonError) :
    (a.r_type = "create" → P.parseCreate a.body = Except.error e →
      FlightAction.try_from P a = Except.error (from_json_error e))
    ∧ (a.r_type = "compute" → P.parseCompute a.body = Except.error e →
        FlightAction.try_from P a = Except.error (from_json_error e))
    ∧ (a.r_type = "relabel" → P.parseRelabel a.body = Except.error e →
        FlightAction.try_from P a = Except.error (from_json_error e))
    ∧ from_json_error e = Status.internal ("JsonError: " ++ e)
    ∧ (from_json_error e).code = StatusCode.internal := by
  refine ⟨fun h hp => ?_, fun h hp => ?_, fun h hp => ?_, rfl, rfl⟩
  · simp [FlightAction.try_from, h, CreateGraphFromFileConfig.try_from, hp]
  · have hc : a.r_type ≠ "create" := by rw [h]; decide
    have hl : a.r_type ≠ "list" := by rw [h]; decide
    simp [FlightAction.try_from, h, hc, hl, ComputeConfig.try_from, hp]
  · have hc : a.r_type ≠ "create" := by rw [h]; decide
    have hl : a.r_type ≠ "list" := by rw [h]; decide
    have hm : a.r_type ≠ "compute" := by rw [h]; decide
    simp [FlightAction.try_from, h, hc, hl, hm, RelabelConfig.try_from, hp]

/-- Witness for C8: a failing `create` body surfaces the JSON error as an
`Internal` status. -/
theorem json_error_surface_witness :
    failingParsers.parseCreate "x" = Except.error "parse failure"
    ∧ FlightAction.try_from failingParsers ⟨"create", "x"⟩ =
        Except.error (Status.internal "JsonError: parse failure") :=
  ⟨rfl, (json_error_surface failingParsers ⟨"create", "x"⟩ "parse failure").1 rfl rfl⟩

/-! ## The put-back intersection on sorted slices -/

theorem scanTo_sorted (w : Nat) (us : List Nat) (h : List.Sorted (· < ·) us) :
    scanTo w us =
      ((if w ∈ us then 1 else 0), us.dropWhile (fun x => decide (x < w))) := by
  induction us with
  | nil => simp [scanTo]
  | cons x xs ih =>
    rw [List.sorted_cons] at h
    obtain ⟨hx, hxs⟩ := h
    by_cases hw : w ≤ x
    · have hnd : decide (x < w) = false := by
        simp only [decide_eq_false_iff_not]
        omega
      by_cases hxw : x = w
      · subst hxw
        simp [scanTo, List.dropWhile_cons, hnd]
      · have hwmem : w ∉ x :: xs := by
          intro hmem
          rcases List.mem_cons.mp hmem with h1 | h1
          · exact hxw h1.symm
          · have := hx w h1
            omega
        simp [scanTo, hw, hxw, List.dropWhile_cons, hnd, hwmem]
    · have hd : decide (x < w) = true := by
        simp only [decide_eq_true_eq]
        omega
      have hxw : x ≠ w := by omega
      have hmem : (w ∈ x :: xs) ↔ w ∈ xs := by
        rw [List.mem_cons]
        constructor
        · rintro (h1 | h1)
          · omega
          · exact h1
        · exact fun h1 => Or.inr h1
      rw [show scanTo w (x :: xs) = scanTo w xs by simp [scanTo, hw],
        ih hxs, List.dropWhile_cons, hd]
      simp only [if_true, hmem]

theorem intersectCount_sorted (v : Nat) (ws us : List Nat)
    (hus : List.Sorted (· < ·) us) (hws : List.Sorted (· < ·) ws) :
    intersectCount v us ws =
      ws.countP (fun w => decide (w ≤ v) && decide (w ∈ us)) := by
  induction ws generalizing us with
  | nil => simp [intersectCount]
  | cons w ws ih =>
    rw [List.sorted_cons] at hws
    obtain ⟨hw, hws'⟩ := hws
    by_cases hv : v < w
    · rw [show intersectCount v us (w :: ws) = 0 by simp [intersectCount, hv]]
      symm
      rw [List.countP_eq_zero]
      intro a ha
      rcases List.mem_cons.mp ha with h1 | h1
      · subst h1
        simp only [Bool.and_eq_true, decide_eq_true_eq]
        rintro ⟨h2, _⟩
        omega
      · have := hw a h1
        simp only [Bool.and_eq_true, decide_eq_true_eq]
        rintro ⟨h2, _⟩
        omega
    · have hstep : intersectCount v us (w :: ws) =
          (if w ∈ us then 1 else 0) +
            intersectCount v (us.dropWhile (fun x => decide (x < w))) ws := by
        simp only [intersectCount, if_neg hv, scanTo_sorted w us hus]
      rw [hstep, List.countP_cons]
      have hsub : List.Sublist (us.dropWhile (fun x => decide (x < w))) us :=
        List.dropWhile_sublist _
      have hus' : List.Sorted (· < ·) (us.dropWhile (fun x => decide (x < w))) :=
        hus.sublist hsub
      rw [ih _ hus' hws']
      have hmemeq : ∀ b ∈ ws,
          ((decide (b ≤ v) && decide (b ∈ us.dropWhile (fun x => decide (x < w)))) = true
            ↔ (decide (b ≤ v) && decide (b ∈ us)) = true) := by
        intro b hb
        have hbw : w < b := hw b hb
        have : b ∈ us.dropWhile (fun x => decide (x < w)) ↔ b ∈ us := by
          constructor
          · exact fun hm => hsub.subset hm
          · intro hm
            have hsplit := List.takeWhile_append_dropWhile
              (p := fun x => decide (x < w)) (l := us)
            rw [← hsplit] at hm
            rcases List.mem_append.mp hm with h1 | h1
            · have := List.mem_takeWhile_imp h1
              simp only [decide_eq_true_eq] at this
              omega
            · exact h1
        simp [this]
      rw [List.countP_congr hmemeq]
      have hwv : (decide (w ≤ v) && decide (w ∈ us)) = decide (w ∈ us) := by
        have : decide (w ≤ v) = true := by
          simp only [decide_eq_true_eq]
          omega
        rw [this, Bool.true_and]
      rw [hwv]
      by_cases hmem : w ∈ us
      · simp [hmem, Nat.add_comm]
      · simp [hmem]

theorem neighborLoop_sorted (g : UGraph) (u : Nat) (vs : List Nat)
    (hvs : List.Sorted (· < ·) vs) :
    neighborLoop g u vs =
      ((vs.filter (fun v => decide (v ≤ u))).map
        (fun v => intersectCount v (g.neighbors u) (g.neighbors v))).sum := by
  induction vs with
  | nil => simp [neighborLoop]
  | cons v vs ih =>
    rw [List.sorted_cons] at hvs
    obtain ⟨hv, hvs'⟩ := hvs
    by_cases h : u < v
    · rw [show neighborLoop g u (v :: vs) = 0 by simp [neighborLoop, h]]
      have : (v :: vs).filter (fun v => decide (v ≤ u)) = [] := by
        rw [List.filter_eq_nil_iff]
        intro a ha
        rcases List.mem_cons.mp ha with h1 | h1
        · subst h1
          simp only [decide_eq_true_eq]
          omega
        · have := hv a h1
          simp only [decide_eq_true_eq]
          omega
      rw [this]
      rfl
    · have hvle : decide (v ≤ u) = true := by
        simp only [decide_eq_true_eq]
        omega
      have hfil : (v :: vs).filter (fun v => decide (v ≤ u)) =
          v :: vs.filter (fun v => decide (v ≤ u)) := by
        simp [List.filter_cons, hvle]
      rw [show neighborLoop g u (v :: vs) =
          intersectCount v (g.neighbors u) (g.neighbors v) + neighborLoop g u vs by
            simp [neighborLoop, h],
        ih hvs', hfil, List.map_cons, List.sum_cons]

/-! ## The configurations enumerated by the kernel -/

/-- The `(v, w)` configurations the kernel counts while processing `u`. -/
def innerPairs (g : UGraph) (u : Nat) : List (Nat × Nat) :=
  ((g.neighbors u).filter (fun v => decide (v ≤ u))).flatMap
    (fun v => ((g.neighbors v).filter
        (fun w => decide (w ≤ v) && decide (w ∈ g.neighbors u))).map (fun w => (v, w)))

/-- All configurations the kernel counts, tagged with their `u`. -/
def configList (g : UGraph) : List (Nat × Nat × Nat) :=
  (List.range g.node_count).flatMap
    (fun u => (innerPairs g u).map (fun p => (u, p.1, p.2)))

theorem triangleCountAt_eq_length (g : UGraph) (hs : StrictSorted g)
    (u : Nat) (hu : u < g.node_count) :
    triangleCountAt g u = (innerPairs g u).length := by
  unfold triangleCountAt innerPairs
  rw [neighborLoop_sorted g u _ (hs u hu), List.length_flatMap]
  congr 1
  apply List.map_congr_left
  intro v hv
  rw [List.mem_filter] at hv
  obtain ⟨hvmem, hvle⟩ := hv
  have hvn : v < g.node_count := by
    simp only [decide_eq_true_eq] at hvle
    omega
  simp only [Function.comp_apply, List.length_map]
  rw [intersectCount_sorted v _ _ (hs u hu) (hs v hvn),
    List.countP_eq_length_filter]

theorem global_eq_configList (g : UGraph) (hs : StrictSorted g) :
    global_triangle_count g = (configList g).length := by
  rw [global_eq_processRange]
  unfold processRange configList
  rw [List.length_flatMap, Nat.sub_zero, ← List.range_eq_range']
  congr 1
  apply List.map_congr_left
  intro u hu
  rw [List.mem_range] at hu
  simp only [Function.comp_apply, List.length_map]
  exact triangleCountAt_eq_length g hs u hu

theorem innerPairs_nodup (g : UGraph) (hs : StrictSorted g)
    (u : Nat) (hu : u < g.node_count) :
    (innerPairs g u).Nodup := by
  unfold innerPairs
  rw [List.nodup_flatMap]
  constructor
  · intro v hv
    rw [List.mem_filter] at hv
    obtain ⟨hvmem, hvle⟩ := hv
    have hvn : v < g.node_count := by
      simp only [decide_eq_true_eq] at hvle
      omega
    exact (((hs v hvn).nodup).filter _).map
      (fun a b hab => by simpa using congrArg Prod.snd hab)
  · have hnd : ((g.neighbors u).filter (fun v => decide (v ≤ u))).Nodup :=
      ((hs u hu).nodup).filter _
    refine hnd.imp ?_
    intro v v' hne p hp hp'
    rw [List.mem_map] at hp hp'
    obtain ⟨w, _, rfl⟩ := hp
    obtain ⟨w', _, h2⟩ := hp'
    exact hne (congrArg Prod.fst h2).symm

theorem configList_nodup (g : UGraph) (hs : StrictSorted g) :
    (configList g).Nodup := by
  unfold configList
  rw [List.nodup_flatMap]
  constructor
  · intro u hu
    rw [List.mem_range] at hu
    exact (innerPairs_nodup g hs u hu).map
      (fun a b hab => by
        have h1 := congrArg (fun t => t.2.1) hab
        have h2 := congrArg (fun t => t.2.2) hab
        simp at h1 h2
        exact Prod.ext h1 h2)
  · refine (List.nodup_range _).imp ?_
    intro u u' hne t ht ht'
    rw [List.mem_map] at ht ht'
    obtain ⟨p, _, rfl⟩ := ht
    obtain ⟨p', _, h2⟩ := ht'
    exact hne (congrArg Prod.fst h2).symm

theorem configList_mem (g : UGraph) (hnl : NoSelfLoops g)
    (t : Nat × Nat × Nat) : t ∈ configList g ↔ t ∈ configSet g := by
  obtain ⟨u, v, w⟩ := t
  unfold configList innerPairs configSet
  rw [List.mem_flatMap]
  simp only [Finset.mem_filter, Finset.mem_product, Finset.mem_range]
  constructor
  · rintro ⟨u', hu', ht⟩
    rw [List.mem_map] at ht
    obtain ⟨p, hp, hpe⟩ := ht
    rw [List.mem_flatMap] at hp
    obtain ⟨v', hv', hw⟩ := hp
    rw [List.mem_map] at hw
    obtain ⟨w', hw', hwe⟩ := hw
    subst hwe
    obtain ⟨h1, h2, h3⟩ : u' = u ∧ v' = v ∧ w' = w := by
      simpa [Prod.ext_iff] using hpe
    subst h1
    subst h2
    subst h3
    rw [List.mem_range] at hu'
    rw [List.mem_filter] at hv' hw'
    obtain ⟨hvmem, hvle⟩ := hv'
    obtain ⟨hwmem, hwle⟩ := hw'
    simp only [decide_eq_true_eq, Bool.and_eq_true] at hvle hwle
    have hvne : v' ≠ u' := fun h => (hnl u' hu') (h ▸ hvmem)
    have hvlt : v' < u' := by omega
    have hwne : w' ≠ v' := fun h => (hnl v' (by omega)) (h ▸ hwmem)
    have hwlt : w' < v' := by omega
    exact ⟨⟨hu', by omega, by omega⟩, hwlt, hvlt, hvmem, hwle.2, hwmem⟩
  · rintro ⟨⟨hu, hv, hw⟩, hwv, hvu, havu, havw, hvw⟩
    refine ⟨u, List.mem_range.mpr hu, ?_⟩
    rw [List.mem_map]
    refine ⟨(v, w), ?_, rfl⟩
    rw [List.mem_flatMap]
    refine ⟨v, ?_, ?_⟩
    · rw [List.mem_filter]
      exact ⟨havu, by simp only [decide_eq_true_eq]; omega⟩
    · rw [List.mem_map]
      refine ⟨w, ?_, rfl⟩
      rw [List.mem_filter]
      refine ⟨hvw, ?_⟩
      simp only [Bool.and_eq_true, decide_eq_true_eq]
      exact ⟨by omega, havw⟩

theorem global_eq_configSet (g : UGraph) (hs : StrictSorted g)
    (hnl : NoSelfLoops g) :
    global_triangle_count g = (configSet g).card := by
  rw [global_eq_configList g hs,
    ← List.toFinset_card_of_nodup (configList_nodup g hs)]
  congr 1
  ext t
  rw [List.mem_toFinset]
  exact configList_mem g hnl t

/-- The adjacency pattern checked by the kernel on a configuration
`(a, b, c)`: `b` and `c` in `a`'s slice and `c` in `b`'s slice (reading
`x ∈ neighbors x` as a self-loop). -/
def adjTriple (g : UGraph) (a b c : Nat) : Prop :=
  b ∈ g.neighbors a ∧ c ∈ g.neighbors a ∧ c ∈ g.neighbors b

instance (g : UGraph) (a b c : Nat) : Decidable (adjTriple g a b c) :=
  inferInstanceAs (Decidable (b ∈ g.neighbors a ∧ c ∈ g.neighbors a ∧
    c ∈ g.neighbors b))

/-- The configurations the kernel counts on a strictly sorted graph with
self-loops permitted: `(u, v, w)` with `w ≤ v ≤ u` and the kernel's
adjacency pattern. -/
def configSetLe (g : UGraph) : Finset (Nat × Nat × Nat) :=
  ((Finset.range g.node_count) ×ˢ (Finset.range g.node_count) ×ˢ
      (Finset.range g.node_count)).filter
    (fun t => t.2.2 ≤ t.2.1 ∧ t.2.1 ≤ t.1 ∧ adjTriple g t.1 t.2.1 t.2.2)

theorem configList_mem_le (g : UGraph) (t : Nat × Nat × Nat) :
    t ∈ configList g ↔ t ∈ configSetLe g := by
  obtain ⟨u, v, w⟩ := t
  unfold configList innerPairs configSetLe adjTriple
  rw [List.mem_flatMap]
  simp only [Finset.mem_filter, Finset.mem_product, Finset.mem_range]
  constructor
  · rintro ⟨u', hu', ht⟩
    rw [List.mem_map] at ht
    obtain ⟨p, hp, hpe⟩ := ht
    rw [List.mem_flatMap] at hp
    obtain ⟨v', hv', hw⟩ := hp
    rw [List.mem_map] at hw
    obtain ⟨w', hw', hwe⟩ := hw
    subst hwe
    obtain ⟨h1, h2, h3⟩ : u' = u ∧ v' = v ∧ w' = w := by
      simpa [Prod.ext_iff] using hpe
    subst h1
    subst h2
    subst h3
    rw [List.mem_range] at hu'
    rw [List.mem_filter] at hv' hw'
    obtain ⟨hvmem, hvle⟩ := hv'
    obtain ⟨hwmem, hwle⟩ := hw'
    simp only [decide_eq_true_eq, Bool.and_eq_true] at hvle hwle
    exact ⟨⟨hu', by omega, by omega⟩, hwle.1, hvle, hvmem, hwle.2, hwmem⟩
  · rintro ⟨⟨hu, hv, hw⟩, hwv, hvu, havu, havw, hvw⟩
    refine ⟨u, List.mem_range.mpr hu, ?_⟩
    rw [List.mem_map]
    refine ⟨(v, w), ?_, rfl⟩
    rw [List.mem_flatMap]
    refine ⟨v, ?_, ?_⟩
    · rw [List.mem_filter]
      exact ⟨havu, by simp only [decide_eq_true_eq]; omega⟩
    · rw [List.mem_map]
      refine ⟨w, ?_, rfl⟩
      rw [List.mem_filter]
      refine ⟨hvw, ?_⟩
      simp only [Bool.and_eq_true, decide_eq_true_eq]
      exact ⟨by omega, havw⟩

theorem global_eq_configSetLe (g : UGraph) (hs : StrictSorted g) :
    global_triangle_count g = (configSetLe g).card := by
  rw [global_eq_configList g hs,
    ← List.toFinset_card_of_nodup (configList_nodup g hs)]
  congr 1
  ext t
  rw [List.mem_toFinset]
  exact configList_mem_le g t

/-! ## Configurations versus unordered triples -/

theorem triple_card_three {u v w : Nat} (h2 : w < v) (h1 : v < u) :
    ({u, v, w} : Finset Nat).card = 3 :=
  Finset.card_eq_three.mpr ⟨u, v, w, by omega, by omega, by omega, rfl⟩

theorem desc_triple_inj {u v w u' v' w' : Nat} (h2 : w < v) (h1 : v < u)
    (h2' : w' < v') (h1' : v' < u')
    (he : ({u, v, w} : Finset Nat) = ({u', v', w'} : Finset Nat)) :
    u = u' ∧ v = v' ∧ w = w' := by
  have mu : u ∈ ({u', v', w'} : Finset Nat) := he ▸ (by simp)
  have mv : v ∈ ({u', v', w'} : Finset Nat) := he ▸ (by simp)
  have mw : w ∈ ({u', v', w'} : Finset Nat) := he ▸ (by simp)
  have mu' : u' ∈ ({u, v, w} : Finset Nat) := he.symm ▸ (by simp)
  have mv' : v' ∈ ({u, v, w} : Finset Nat) := he.symm ▸ (by simp)
  have mw' : w' ∈ ({u, v, w} : Finset Nat) := he.symm ▸ (by simp)
  simp only [Finset.mem_insert, Finset.mem_singleton] at mu mv mw mu' mv' mw'
  omega

theorem configSet_card_eq_tripleSet_card (g : UGraph) (hsym : SymAdj g) :
    (configSet g).card = (tripleSet g).card := by
  apply Finset.card_bij (fun t _ => ({t.1, t.2.1, t.2.2} : Finset Nat))
  · rintro ⟨u, v, w⟩ ht
    simp only [configSet, Finset.mem_filter, Finset.mem_product, Finset.mem_range] at ht
    obtain ⟨⟨hu, hv, hw⟩, hwv, hvu, havu, havw, hvw⟩ := ht
    rw [tripleSet, Finset.mem_filter, Finset.mem_powersetCard]
    refine ⟨⟨?_, triple_card_three hwv hvu⟩, ?_⟩
    · intro x hx
      simp only [Finset.mem_insert, Finset.mem_singleton] at hx
      rw [Finset.mem_range]
      omega
    · have hadjvu : adj g v u := (hsym u hu v hv (by omega)).mp havu
      have hadjwu : adj g w u := (hsym u hu w hw (by omega)).mp havw
      have hadjwv : adj g w v := (hsym v hv w hw (by omega)).mp hvw
      intro a ha b hb hab
      simp only [Finset.mem_insert, Finset.mem_singleton] at ha hb
      rcases ha with rfl | rfl | rfl <;> rcases hb with rfl | rfl | rfl <;>
        first
          | exact absurd rfl hab
          | assumption
  · rintro ⟨u, v, w⟩ ht ⟨u', v', w'⟩ ht' he
    simp only [configSet, Finset.mem_filter, Finset.mem_product,
      Finset.mem_range] at ht ht'
    obtain ⟨-, hwv, hvu, -, -, -⟩ := ht
    obtain ⟨-, hwv', hvu', -, -, -⟩ := ht'
    obtain ⟨e1, e2, e3⟩ := desc_triple_inj hwv hvu hwv' hvu' he
    simp [e1, e2, e3]
  · intro s hs
    rw [tripleSet, Finset.mem_filter, Finset.mem_powersetCard] at hs
    obtain ⟨⟨hsub, hcard⟩, hadj⟩ := hs
    obtain ⟨a, b, c, hab, hac, hbc, rfl⟩ := Finset.card_eq_three.mp hcard
    have hma : a ∈ ({a, b, c} : Finset Nat) := by simp
    have hmb : b ∈ ({a, b, c} : Finset Nat) := by simp
    have hmc : c ∈ ({a, b, c} : Finset Nat) := by simp
    have hra := Finset.mem_range.mp (hsub hma)
    have hrb := Finset.mem_range.mp (hsub hmb)
    have hrc := Finset.mem_range.mp (hsub hmc)
    have key : ∀ x y z : Nat, x ∈ ({a, b, c} : Finset Nat) →
        y ∈ ({a, b, c} : Finset Nat) → z ∈ ({a, b, c} : Finset Nat) →
        z < y → y < x → x < g.node_count → y < g.node_count →
        z < g.node_count → ({a, b, c} : Finset Nat) = {x, y, z} →
        ∃ t, ∃ ht : t ∈ configSet g,
          ({t.1, t.2.1, t.2.2} : Finset Nat) = ({a, b, c} : Finset Nat) := by
      intro x y z hx hy hz hzy hyx hxn hyn hzn hset
      refine ⟨(x, y, z), ?_, hset.symm⟩
      simp only [configSet, Finset.mem_filter, Finset.mem_product, Finset.mem_range]
      exact ⟨⟨hxn, hyn, hzn⟩, hzy, hyx,
        hadj x hx y hy (by omega), hadj x hx z hz (by omega),
        hadj y hy z hz (by omega)⟩
    rcases Nat.lt_trichotomy a b with h1 | h1 | h1
    · rcases Nat.lt_trichotomy b c with h2 | h2 | h2
      · exact key c b a hmc hmb hma h1 h2 hrc hrb hra (by
          ext x
          simp only [Finset.mem_insert, Finset.mem_singleton] <;> tauto)
      · omega
      · rcases Nat.lt_trichotomy a c with h3 | h3 | h3
        · exact key b c a hmb hmc hma h3 h2 hrb hrc hra (by
            ext x
            simp only [Finset.mem_insert, Finset.mem_singleton] <;> tauto)
        · omega
        · exact key b a c hmb hma hmc h3 h1 hrb hra hrc (by
            ext x
            simp only [Finset.mem_insert, Finset.mem_singleton] <;> tauto)
    · omega
    · rcases Nat.lt_trichotomy a c with h2 | h2 | h2
      · exact key c a b hmc hma hmb h1 h2 hrc hra hrb (by
          ext x
          simp only [Finset.mem_insert, Finset.mem_singleton] <;> tauto)
      · omega
      · rcases Nat.lt_trichotomy b c with h3 | h3 | h3
        · exact key a c b hma hmc hmb h3 h2 hra hrc hrb (by
            ext x
            simp only [Finset.mem_insert, Finset.mem_singleton] <;> tauto)
        · omega
        · exact key a b c hma hmb hmc h3 h1 hra hrb hrc (by
            ext x
            simp only [Finset.mem_insert, Finset.mem_singleton] <;> tauto)

theorem global_eq_tripleSet_card (g : UGraph) (hs : StrictSorted g)
    (hnl : NoSelfLoops g) (hsym : SymAdj g) :
    global_triangle_count g = (tripleSet g).card := by
  rw [global_eq_configSet g hs hnl, configSet_card_eq_tripleSet_card g hsym]

/-- Claim C1 (amended: the graph must additionally be self-loop-free; see
the counterexample below): for every undirected graph with `Deduplicated`
layout — each neighbour slice strictly ascending and every edge `(u, v)`
with `u ≠ v` present in both `u`'s and `v`'s slice — and without
self-loops, `global_triangle_count` returns the number of unordered
triples `{u, v, w}` of mutually adjacent distinct nodes, each triangle
counted exactly once, which also equals the number of configurations
`(u, v, w)` with `w < v < u`, `v` a neighbour of `u`, and `w` a common
neighbour of `u` and `v`. -/
theorem triangle_count_correct (g : UGraph) (hs : StrictSorted g)
    (hnl : NoSelfLoops g) (hsym : SymAdj g) :
    global_triangle_count g = (tripleSet g).card
    ∧ global_triangle_count g = (configSet g).card :=
  ⟨global_eq_tripleSet_card g hs hnl hsym, global_eq_configSet g hs hnl⟩

/-- Witness for C1: the two disjoint triangles of spec scenario 1. -/
theorem triangle_count_correct_witness :
    StrictSorted gTwoTriangles ∧ NoSelfLoops gTwoTriangles ∧ SymAdj gTwoTriangles
    ∧ (global_triangle_count gTwoTriangles = (tripleSet gTwoTriangles).card
        ∧ global_triangle_count gTwoTriangles = (configSet gTwoTriangles).card)
    ∧ (tripleSet gTwoTriangles).card = 2 :=
  ⟨by decide, by decide, by decide,
    triangle_count_correct gTwoTriangles (by decide) (by decide) (by decide),
    by decide⟩

/-- Counterexample to C1 as stated: `gSelfLoop` satisfies the claim's
stated precondition (strictly ascending slices, both-slice symmetry for
`u ≠ v`), yet the kernel returns 2 while the graph has no triangle at all
(and no configuration `w < v < u`): the self-loop `1 ∈ neighbors 1` is
processed rather than skipped. -/
theorem triangle_count_selfloop_counterexample :
    StrictSorted gSelfLoop ∧ SymAdj gSelfLoop
    ∧ global_triangle_count gSelfLoop = 2
    ∧ (tripleSet gSelfLoop).card = 0
    ∧ (configSet gSelfLoop).card = 0 := by
  refine ⟨by decide, by decide, ?_, by decide, by decide⟩
  rw [global_eq_processRange]
  decide

/-! ## Chunk decomposition of the count -/

theorem sum_flatten_map (f : Nat → Nat) (parts : List (List Nat)) :
    (parts.map (fun ks => ((ks.map f).sum))).sum = (parts.flatten.map f).sum := by
  induction parts with
  | nil => rfl
  | cons p ps ih =>
    rw [List.map_cons, List.sum_cons, ih, List.flatten_cons,
      List.map_append, List.sum_append]

theorem chunkSum_tail (g : UGraph) (cs : Nat) (hcs : 0 < cs) (k : Nat) :
    ((List.range' k (numChunks cs g.node_count - k)).map (chunkSum g cs)).sum
      = processRange g (k * cs) g.node_count := by
  by_cases h : k < numChunks cs g.node_count
  · have hle : (k + 1) * cs ≤ g.node_count + cs - 1 :=
      (Nat.le_div_iff_mul_le hcs).mp h
    have hexp : (k + 1) * cs = k * cs + cs := by ring
    have hlt : k * cs < g.node_count := by omega
    rw [show numChunks cs g.node_count - k =
        (numChunks cs g.node_count - (k + 1)) + 1 by omega,
      List.range'_succ, List.map_cons, List.sum_cons,
      chunkSum_tail g cs hcs (k + 1)]
    unfold chunkSum
    by_cases h2 : k * cs + cs ≤ g.node_count
    · rw [min_eq_left h2, hexp]
      exact processRange_append g (k * cs) (k * cs + cs) g.node_count (by omega) h2
    · rw [min_eq_right (by omega), processRange_empty g ((k + 1) * cs)
        g.node_count (by omega)]
      omega
  · have hge : g.node_count + cs - 1 < (k + 1) * cs := by
      have := (Nat.div_lt_iff_lt_mul hcs).mp
        (show numChunks cs g.node_count < k + 1 by omega)
      omega
    have hexp : (k + 1) * cs = k * cs + cs := by ring
    rw [show numChunks cs g.node_count - k = 0 by omega,
      processRange_empty g (k * cs) g.node_count (by omega)]
    rfl
termination_by numChunks cs g.node_count - k
decreasing_by omega

theorem chunkList_sum (g : UGraph) (cs : Nat) (hcs : 0 < cs) :
    ((List.range (numChunks cs g.node_count)).map (chunkSum g cs)).sum
      = processRange g 0 g.node_count := by
  have h := chunkSum_tail g cs hcs 0
  rw [Nat.sub_zero, Nat.zero_mul] at h
  rw [List.range_eq_range']
  exact h

/-- Claim C2: `global_triangle_count` is deterministic: the same value is
returned for any positive chunk size, for any distribution of the claimed
chunks over any number of workers (each worker sums its chunks, the
worker tallies are then summed), and across repeated invocations on the
unchanged graph. -/
theorem tc_deterministic (g : UGraph) :
    (∀ cs, 0 < cs → tcChunks g cs 0 = global_triangle_count g)
    ∧ (∀ parts : List (List Nat),
        parts.flatten.Perm (List.range (numChunks CHUNK_SIZE g.node_count)) →
        (parts.map (fun ks => ((ks.map (chunkSum g CHUNK_SIZE)).sum))).sum
          = global_triangle_count g)
    ∧ global_triangle_count g = global_triangle_count g := by
  refine ⟨fun cs hcs => ?_, fun parts hperm => ?_, rfl⟩
  · rw [tcChunks_eq_processRange g cs hcs 0, global_eq_processRange]
  · rw [global_eq_processRange, ← chunkList_sum g CHUNK_SIZE (by decide),
      sum_flatten_map (chunkSum g CHUNK_SIZE) parts]
    exact List.Perm.sum_eq (hperm.map (chunkSum g CHUNK_SIZE))

/-- Witness for C2: chunk size 1 and a single worker claiming the single
64-wide chunk both reproduce `global_triangle_count` on `gTwoTriangles`. -/
theorem tc_deterministic_witness :
    (0 : Nat) < 1
    ∧ tcChunks gTwoTriangles 1 0 = global_triangle_count gTwoTriangles
    ∧ ([[0]] : List (List Nat)).flatten.Perm
        (List.range (numChunks CHUNK_SIZE gTwoTriangles.node_count))
    ∧ (([[0]] : List (List Nat)).map
        (fun ks => ((ks.map (chunkSum gTwoTriangles CHUNK_SIZE)).sum))).sum
        = global_triangle_count gTwoTriangles :=
  ⟨by decide, (tc_deterministic gTwoTriangles).1 1 (by decide), by decide,
    (tc_deterministic gTwoTriangles).2.1 [[0]] (by decide)⟩

/-- Claim C10: the chunks claimed through the shared cursor partition
`[0, node_count)`: every node id lies in exactly one claimed chunk (the
chunks with start `k * CHUNK_SIZE` for `k < numChunks`, all other claims
being empty of nodes), and the total count decomposes accordingly, so
each node's triangles are enumerated exactly once. -/
theorem chunk_partition (g : UGraph) (i : Nat) (h : i < g.node_count) :
    (∃! k, i ∈ claimedChunk CHUNK_SIZE g.node_count (k * CHUNK_SIZE))
    ∧ global_triangle_count g =
        ((List.range (numChunks CHUNK_SIZE g.node_count)).map
          (chunkSum g CHUNK_SIZE)).sum
    ∧ (∀ k, i ∈ claimedChunk CHUNK_SIZE g.node_count (k * CHUNK_SIZE) →
        k < numChunks CHUNK_SIZE g.node_count) := by
  have hcs : CHUNK_SIZE = 64 := rfl
  refine ⟨⟨i / 64, ?_, ?_⟩, ?_, ?_⟩
  · simp only [hcs, claimedChunk, List.mem_range'_1]
    have hd := Nat.div_add_mod i 64
    have hm : i % 64 < 64 := Nat.mod_lt i (by omega)
    omega
  · intro k hk
    simp only [hcs, claimedChunk, List.mem_range'_1] at hk
    have hd := Nat.div_add_mod i 64
    have hm : i % 64 < 64 := Nat.mod_lt i (by omega)
    omega
  · rw [global_eq_processRange, chunkList_sum g CHUNK_SIZE (by decide)]
  · intro k hk
    simp only [hcs, claimedChunk, List.mem_range'_1] at hk
    rw [hcs]
    unfold numChunks
    have hd := Nat.div_add_mod (g.node_count + 64 - 1) 64
    have hm : (g.node_count + 64 - 1) % 64 < 64 := Nat.mod_lt _ (by omega)
    omega

/-- Witness for C10: node 3 of `gTwoTriangles` lies in exactly one
claimed chunk. -/
theorem chunk_partition_witness :
    3 < gTwoTriangles.node_count
    ∧ ((∃! k, (3 : Nat) ∈
          claimedChunk CHUNK_SIZE gTwoTriangles.node_count (k * CHUNK_SIZE))
      ∧ global_triangle_count gTwoTriangles =
          ((List.range (numChunks CHUNK_SIZE gTwoTriangles.node_count)).map
            (chunkSum gTwoTriangles CHUNK_SIZE)).sum
      ∧ (∀ k, (3 : Nat) ∈
            claimedChunk CHUNK_SIZE gTwoTriangles.node_count (k * CHUNK_SIZE) →
          k < numChunks CHUNK_SIZE gTwoTriangles.node_count)) :=
  ⟨by decide, chunk_partition gTwoTriangles 3 (by decide)⟩

/-! ## Self-loop behaviour -/

theorem filter_le_split (u : Nat) (l : List Nat) (hsort : List.Sorted (· < ·) l)
    (hmem : u ∈ l) :
    l.filter (fun v => decide (v ≤ u)) = l.filter (fun v => decide (v < u)) ++ [u] := by
  induction l with
  | nil => cases hmem
  | cons x xs ih =>
    rw [List.sorted_cons] at hsort
    obtain ⟨hx, hxs⟩ := hsort
    rcases List.mem_cons.mp hmem with h1 | h1
    · subst h1
      have hfle : xs.filter (fun v => decide (v ≤ u)) = [] := by
        rw [List.filter_eq_nil_iff]
        intro b hb
        have := hx b hb
        simp only [decide_eq_true_eq]
        omega
      have hflt : xs.filter (fun v => decide (v < u)) = [] := by
        rw [List.filter_eq_nil_iff]
        intro b hb
        have := hx b hb
        simp only [decide_eq_true_eq]
        omega
      simp [List.filter_cons, hfle, hflt]
    · have hxu : x < u := hx u h1
      have h2 : decide (x ≤ u) = true := by
        simp only [decide_eq_true_eq]
        omega
      have h3 : decide (x < u) = true := by
        simp only [decide_eq_true_eq]
        omega
      simp only [List.filter_cons, h2, h3, if_true, ih hxs h1, List.cons_append]

/-- Claim C3 (corrected): the `v > u` break does not skip the self-loop
entry `v == u` — it terminates the loop only at the first `v` strictly
greater than `u` — so when `u`'s strictly ascending slice contains `u`,
the self-loop entry is processed like any other `v ≤ u` and contributes
`|{w ∈ neighbors(u) : w ≤ u}|` triangle counts on top of the
contributions of the neighbours `v < u`. -/
theorem selfloop_processed (g : UGraph) (u : Nat)
    (hsort : List.Sorted (· < ·) (g.neighbors u))
    (hloop : u ∈ g.neighbors u) :
    triangleCountAt g u =
      (((g.neighbors u).filter (fun v => decide (v < u))).map
        (fun v => intersectCount v (g.neighbors u) (g.neighbors v))).sum
      + (g.neighbors u).countP (fun w => decide (w ≤ u)) := by
  unfold triangleCountAt
  rw [neighborLoop_sorted g u _ hsort, filter_le_split u _ hsort hloop,
    List.map_append, List.sum_append]
  congr 1
  rw [List.map_singleton, List.sum_singleton,
    intersectCount_sorted u _ _ hsort hsort]
  apply List.countP_congr
  intro w hw
  simp only [Bool.and_eq_true, decide_eq_true_eq]
  constructor
  · exact fun h => by simpa using h.1
  · intro h
    simpa using ⟨h, hw⟩

/-- Witness for the corrected C3 at `gSelfLoop`, node 1. -/
theorem selfloop_processed_witness :
    List.Sorted (· < ·) (gSelfLoop.neighbors 1)
    ∧ (1 : Nat) ∈ gSelfLoop.neighbors 1
    ∧ triangleCountAt gSelfLoop 1 =
        (((gSelfLoop.neighbors 1).filter (fun v => decide (v < 1))).map
          (fun v => intersectCount v (gSelfLoop.neighbors 1) (gSelfLoop.neighbors v))).sum
        + (gSelfLoop.neighbors 1).countP (fun w => decide (w ≤ 1)) :=
  ⟨by decide, by decide, selfloop_processed gSelfLoop 1 (by decide) (by decide)⟩

/-- Counterexample to C3 as stated: node 1 of `gSelfLoop` has itself in
its slice, yet its processing contributes 2 triangle counts (the claim
says a self-loop contributes none); dropping the loop (`gNoLoop`) indeed
gives 0. -/
theorem selfloop_counterexample :
    (1 : Nat) ∈ gSelfLoop.neighbors 1
    ∧ triangleCountAt gSelfLoop 1 = 2
    ∧ triangleCountAt gNoLoop 1 = 0 := by
  decide

/-! ## The degree-ordered permutation -/

theorem degOrder_perm (g : UGraph) : (degOrder g).Perm (List.range g.node_count) :=
  List.perm_insertionSort _ _

theorem degOrder_length (g : UGraph) : (degOrder g).length = g.node_count := by
  rw [(degOrder_perm g).length_eq, List.length_range]

theorem degOrder_nodup (g : UGraph) : (degOrder g).Nodup :=
  ((degOrder_perm g).nodup_iff).mpr (List.nodup_range _)

theorem mem_degOrder (g : UGraph) (x : Nat) :
    x ∈ degOrder g ↔ x < g.node_count := by
  rw [(degOrder_perm g).mem_iff, List.mem_range]

theorem origOf_get (g : UGraph) (i : Nat) (hi : i < g.node_count) :
    origOf g i = (degOrder g).get ⟨i, by rw [degOrder_length]; exact hi⟩ :=
  List.getD_eq_get _ _ _

theorem origOf_lt (g : UGraph) (i : Nat) (hi : i < g.node_count) :
    origOf g i < g.node_count := by
  rw [origOf_get g i hi]
  exact (mem_degOrder g _).mp (List.get_mem _ _ _)

theorem newOf_lt (g : UGraph) (x : Nat) (hx : x < g.node_count) :
    newOf g x < g.node_count := by
  unfold newOf
  rw [← degOrder_length g]
  exact List.indexOf_lt_length.mpr ((mem_degOrder g x).mpr hx)

theorem origOf_newOf (g : UGraph) (x : Nat) (hx : x < g.node_count) :
    origOf g (newOf g x) = x := by
  have hmem : x ∈ degOrder g := (mem_degOrder g x).mpr hx
  have hlt : (degOrder g).indexOf x < (degOrder g).length :=
    List.indexOf_lt_length.mpr hmem
  rw [origOf_get g _ (newOf_lt g x hx)]
  exact List.indexOf_get hlt

theorem newOf_origOf (g : UGraph) (i : Nat) (hi : i < g.node_count) :
    newOf g (origOf g i) = i := by
  have hlen : i < (degOrder g).length := by
    rw [degOrder_length]
    exact hi
  rw [origOf_get g i hi]
  unfold newOf
  exact List.get_indexOf (degOrder_nodup g) ⟨i, hlen⟩

/-! ## The relabelled graph -/

theorem relabel_neighbors (g : UGraph) (i : Nat) (hi : i < g.node_count) :
    (relabel_graph g).neighbors i =
      List.insertionSort (· ≤ ·) ((g.neighbors (origOf g i)).map (newOf g)) := by
  unfold relabel_graph
  simp [hi]

theorem relabel_adj (g : UGraph) (hrc : RangeClosed g) (a b : Nat)
    (ha : a < g.node_count) (hb : b < g.node_count) :
    b ∈ (relabel_graph g).neighbors a ↔
      origOf g b ∈ g.neighbors (origOf g a) := by
  rw [relabel_neighbors g a ha, List.mem_insertionSort, List.mem_map]
  constructor
  · rintro ⟨x, hxmem, rfl⟩
    have hx : x < g.node_count := hrc (origOf g a) (origOf_lt g a ha) x hxmem
    rwa [origOf_newOf g x hx]
  · intro hmem
    exact ⟨origOf g b, hmem, newOf_origOf g b hb⟩

theorem relabel_strictSorted (g : UGraph) (hs : StrictSorted g)
    (hrc : RangeClosed g) : StrictSorted (relabel_graph g) := by
  intro i hi
  have hi' : i < g.node_count := hi
  rw [relabel_neighbors g i hi']
  have hsorted : List.Sorted (· ≤ ·)
      (List.insertionSort (· ≤ ·) ((g.neighbors (origOf g i)).map (newOf g))) :=
    List.sorted_insertionSort _ _
  have hnodup : (List.insertionSort (· ≤ ·)
      ((g.neighbors (origOf g i)).map (newOf g))).Nodup := by
    rw [(List.perm_insertionSort _ _).nodup_iff]
    apply List.Nodup.map_on
    · intro x hx y hy hxy
      have hx' := hrc (origOf g i) (origOf_lt g i hi') x hx
      have hy' := hrc (origOf g i) (origOf_lt g i hi') y hy
      rw [← origOf_newOf g x hx', ← origOf_newOf g y hy', hxy]
    · exact (hs (origOf g i) (origOf_lt g i hi')).nodup
  exact hsorted.lt_of_le hnodup

theorem relabel_symAdj (g : UGraph) (hsym : SymAdj g) (hrc : RangeClosed g) :
    SymAdj (relabel_graph g) := by
  intro a ha b hb hne
  have ha' : a < g.node_count := ha
  have hb' : b < g.node_count := hb
  have hone : origOf g a ≠ origOf g b := fun h => hne (by
    rw [← newOf_origOf g a ha', ← newOf_origOf g b hb', h])
  rw [relabel_adj g hrc a b ha' hb', relabel_adj g hrc b a hb' ha']
  exact hsym (origOf g a) (origOf_lt g a ha') (origOf g b) (origOf_lt g b hb') hone

/-! ## Sorting a configuration and relabelling the configuration set -/

/-- Descending sort of a triple. -/
def sort3 (t : Nat × Nat × Nat) : Nat × Nat × Nat :=
  (max t.1 (max t.2.1 t.2.2),
   t.1 + t.2.1 + t.2.2 - max t.1 (max t.2.1 t.2.2) - min t.1 (min t.2.1 t.2.2),
   min t.1 (min t.2.1 t.2.2))

theorem sort3_cases (a b c : Nat) :
    sort3 (a, b, c) = (a, b, c) ∨ sort3 (a, b, c) = (a, c, b) ∨
    sort3 (a, b, c) = (b, a, c) ∨ sort3 (a, b, c) = (b, c, a) ∨
    sort3 (a, b, c) = (c, a, b) ∨ sort3 (a, b, c) = (c, b, a) := by
  unfold sort3
  simp only [Prod.mk.injEq]
  omega

theorem sort3_desc (a b c : Nat) :
    (sort3 (a, b, c)).2.2 ≤ (sort3 (a, b, c)).2.1
    ∧ (sort3 (a, b, c)).2.1 ≤ (sort3 (a, b, c)).1 := by
  unfold sort3
  simp only
  omega

theorem sort3_roundtrip (f h : Nat → Nat) (a b c : Nat)
    (hfa : h (f a) = a) (hfb : h (f b) = b) (hfc : h (f c) = c)
    (h1 : c ≤ b) (h2 : b ≤ a) :
    sort3 (h (sort3 (f a, f b, f c)).1, h (sort3 (f a, f b, f c)).2.1,
      h (sort3 (f a, f b, f c)).2.2) = (a, b, c) := by
  rcases sort3_cases (f a) (f b) (f c) with hh | hh | hh | hh | hh | hh <;>
    rw [hh] <;> dsimp only <;> rw [hfa, hfb, hfc] <;> unfold sort3 <;>
    simp only [Prod.mk.injEq] <;> omega

theorem adjTriple_perm (g : UGraph) (hsym : SymAdj g) (a b c : Nat)
    (ha : a < g.node_count) (hb : b < g.node_count) (hc : c < g.node_count) :
    (adjTriple g b a c ↔ adjTriple g a b c)
    ∧ (adjTriple g a c b ↔ adjTriple g a b c)
    ∧ (adjTriple g b c a ↔ adjTriple g a b c)
    ∧ (adjTriple g c a b ↔ adjTriple g a b c)
    ∧ (adjTriple g c b a ↔ adjTriple g a b c) := by
  have h1 : b ∈ g.neighbors a ↔ a ∈ g.neighbors b := by
    by_cases hab : a = b
    · rw [hab]
    · exact hsym a ha b hb hab
  have h2 : c ∈ g.neighbors a ↔ a ∈ g.neighbors c := by
    by_cases hac : a = c
    · rw [hac]
    · exact hsym a ha c hc hac
  have h3 : c ∈ g.neighbors b ↔ b ∈ g.neighbors c := by
    by_cases hbc : b = c
    · rw [hbc]
    · exact hsym b hb c hc hbc
  unfold adjTriple
  refine ⟨?_, ?_, ?_, ?_, ?_⟩ <;> tauto

theorem mem_configSetLe_iff (g : UGraph) (t : Nat × Nat × Nat) :
    t ∈ configSetLe g ↔
      (t.1 < g.node_count ∧ t.2.1 < g.node_count ∧ t.2.2 < g.node_count)
      ∧ t.2.2 ≤ t.2.1 ∧ t.2.1 ≤ t.1 ∧ adjTriple g t.1 t.2.1 t.2.2 := by
  unfold configSetLe
  simp only [Finset.mem_filter, Finset.mem_product, Finset.mem_range]

theorem sort3_mem_configSetLe (g : UGraph) (hsym : SymAdj g) (a b c : Nat)
    (ha : a < g.node_count) (hb : b < g.node_count) (hc : c < g.node_count)
    (hadj : adjTriple g a b c) : sort3 (a, b, c) ∈ configSetLe g := by
  rw [mem_configSetLe_iff]
  obtain ⟨hp, hq⟩ := sort3_desc a b c
  have hperm := adjTriple_perm g hsym a b c ha hb hc
  rcases sort3_cases a b c with h | h | h | h | h | h <;>
    rw [h] at hp hq ⊢ <;>
    exact ⟨⟨by assumption, by assumption, by assumption⟩, hp, hq, by tauto⟩

theorem relabel_configSetLe_card (g : UGraph) (hsym : SymAdj g)
    (hrc : RangeClosed g) :
    (configSetLe (relabel_graph g)).card = (configSetLe g).card := by
  have hsym' : SymAdj (relabel_graph g) := relabel_symAdj g hsym hrc
  apply Finset.card_nbij'
    (fun t => sort3 (origOf g t.1, origOf g t.2.1, origOf g t.2.2))
    (fun t => sort3 (newOf g t.1, newOf g t.2.1, newOf g t.2.2))
  · intro t ht
    rw [mem_configSetLe_iff] at ht
    obtain ⟨⟨h1, h2, h3⟩, _, _, h6⟩ := ht
    have hadj : adjTriple g (origOf g t.1) (origOf g t.2.1) (origOf g t.2.2) := by
      unfold adjTriple at h6 ⊢
      exact ⟨(relabel_adj g hrc t.1 t.2.1 h1 h2).mp h6.1,
        (relabel_adj g hrc t.1 t.2.2 h1 h3).mp h6.2.1,
        (relabel_adj g hrc t.2.1 t.2.2 h2 h3).mp h6.2.2⟩
    exact sort3_mem_configSetLe g hsym _ _ _ (origOf_lt g _ h1)
      (origOf_lt g _ h2) (origOf_lt g _ h3) hadj
  · intro t ht
    rw [mem_configSetLe_iff] at ht
    obtain ⟨⟨h1, h2, h3⟩, _, _, h6⟩ := ht
    have hadj : adjTriple (relabel_graph g)
        (newOf g t.1) (newOf g t.2.1) (newOf g t.2.2) := by
      unfold adjTriple at h6 ⊢
      refine ⟨?_, ?_, ?_⟩
      · rw [relabel_adj g hrc _ _ (newOf_lt g _ h1) (newOf_lt g _ h2),
          origOf_newOf g _ h1, origOf_newOf g _ h2]
        exact h6.1
      · rw [relabel_adj g hrc _ _ (newOf_lt g _ h1) (newOf_lt g _ h3),
          origOf_newOf g _ h1, origOf_newOf g _ h3]
        exact h6.2.1
      · rw [relabel_adj g hrc _ _ (newOf_lt g _ h2) (newOf_lt g _ h3),
          origOf_newOf g _ h2, origOf_newOf g _ h3]
        exact h6.2.2
    exact sort3_mem_configSetLe (relabel_graph g) hsym' _ _ _
      (newOf_lt g _ h1) (newOf_lt g _ h2) (newOf_lt g _ h3) hadj
  · rintro ⟨a, b, c⟩ ht
    rw [mem_configSetLe_iff] at ht
    obtain ⟨⟨h1, h2, h3⟩, h4, h5, -⟩ := ht
    exact sort3_roundtrip (origOf g) (newOf g) a b c
      (newOf_origOf g a h1) (newOf_origOf g b h2) (newOf_origOf g c h3) h4 h5
  · rintro ⟨a, b, c⟩ ht
    rw [mem_configSetLe_iff] at ht
    obtain ⟨⟨h1, h2, h3⟩, h4, h5, -⟩ := ht
    exact sort3_roundtrip (newOf g) (origOf g) a b c
      (origOf_newOf g a h1) (origOf_newOf g b h2) (origOf_newOf g c h3) h4 h5

/-- Claim C5 (amended: restricted to graphs with `Deduplicated` layout —
strictly ascending slices, so no multi-edges — that are symmetric on
distinct endpoints and whose stored neighbours are valid node ids;
self-loops are permitted; see the multigraph counterexample below): the
degree-ordered relabelling performed by `relabel_graph` preserves the
triangle count. -/
theorem relabel_preserves_triangle_count (g : UGraph) (hs : StrictSorted g)
    (hsym : SymAdj g) (hrc : RangeClosed g) :
    global_triangle_count g = global_triangle_count (relabel_graph g) := by
  rw [global_eq_configSetLe g hs,
    global_eq_configSetLe (relabel_graph g) (relabel_strictSorted g hs hrc),
    relabel_configSetLe_card g hsym hrc]

/-- Witness for C5: the triangle with a self-loop keeps its count (4)
across relabelling. -/
theorem relabel_preserves_triangle_count_witness :
    StrictSorted gTriLoop ∧ SymAdj gTriLoop ∧ RangeClosed gTriLoop
    ∧ global_triangle_count gTriLoop =
        global_triangle_count (relabel_graph gTriLoop) :=
  ⟨by decide, by decide, by decide,
    relabel_preserves_triangle_count gTriLoop (by decide) (by decide) (by decide)⟩

/-- A symmetric multigraph (`Sorted` but not `Deduplicated` layout): the
triangle `{0, 1, 2}` with the edge `{0, 2}` duplicated. -/
def gMulti : UGraph where
  node_count := 3
  neighbors := fun u =>
    match u with
    | 0 => [1, 2, 2]
    | 1 => [0, 2]
    | 2 => [0, 0, 1]
    | _ => []

/-- Counterexample to C5 as stated ("for every graph G"): on the sorted
multigraph `gMulti` the kernel counts 1 before and 2 after the
degree-ordered relabelling. -/
theorem relabel_multigraph_counterexample :
    global_triangle_count gMulti = 1
    ∧ global_triangle_count (relabel_graph gMulti) = 2 := by
  constructor <;> rw [global_eq_processRange] <;> decide

/-- Claim C9: `PageRankResult.score(node_id)` is total: it returns `Some`
of the stored score when `node_id` is in bounds and `None` when
`node_id ≥ scores.len()`. -/
theorem score_total (r : PageRankResult) (node_id : Nat) :
    r.score node_id =
      if h : node_id < r.scores.length then some (r.scores.get ⟨node_id, h⟩)
      else none := by
  unfold PageRankResult.score
  split
  · exact List.get?_eq_get _
  · exact List.get?_eq_none.mpr (by omega)

end TC
